import Mathlib

/-!
Verification development for the hed-mcp repository.

The embedding models the repository's own glue logic: the issue formatter
(`src/utils/issueFormatter.ts`), the schema-version normalizer and schema
cache (`src/utils/schemaCache.ts`), the definition assembler
(`src/utils/definitionProcessor.ts`) and the three tool handlers
(`src/tools/validateHedString.ts`, `validateHedTsv.ts`,
`validateHedSidecar.ts`).  External collaborators (the hed-validator
library, the file system) are parameters of the embedded handlers.

JavaScript runtime values that flow through the formatter are modelled by
the inductive type `JSVal`.  Machine-level caveats of the model: the JS
string conversion `String(x)` is modelled as a total function (objects are
assumed to carry the standard inherited `toString`), JS whitespace in
`trim` is modelled by `Char.isWhitespace`, and `toUpperCase` is modelled by
`String.toUpper`; only values of string shape respond to `toUpperCase`,
matching standard JS semantics for primitives and plain objects.
-/

/-- Primitive JS values that appear inside a hed-validator `Issue.parameters`
bag (the library only stores strings and numbers there, possibly absent). -/
inductive JSPrim where
  | prStr (s : String)
  | prNum (n : Int)
  | prNull
  | prUndef
deriving DecidableEq, Repr

/-- JS truthiness for the primitive values. -/
def JSPrim.truthy : JSPrim → Bool
  | .prStr s => s ≠ ""
  | .prNum n => n ≠ 0
  | .prNull => false
  | .prUndef => false

/-- JS `String(x)` for the primitive values. -/
def JSPrim.toStr : JSPrim → String
  | .prStr s => s
  | .prNum n => toString n
  | .prNull => "null"
  | .prUndef => "undefined"

/-- JS `a || b` on a primitive scrutinee with a primitive fallback. -/
def JSPrim.orElse (a b : JSPrim) : JSPrim :=
  if a.truthy then a else b

/-- A structured hed-validator `Issue` (fields used by the formatter:
`internalCode`, `hedCode`, `level`, `message`, `parameters`). -/
structure HedIssue where
  internalCode : String
  hedCode : String
  level : String
  message : String
  parameters : List (String × JSPrim)
deriving DecidableEq, Repr

/-- A hed-validator `IssueError` (an `Error` subclass optionally wrapping a
structured `Issue`; `message` is the `Error` message). -/
structure HedIssueError where
  inner : Option HedIssue
  message : String
deriving DecidableEq, Repr

/-- A hed-validator `BidsHedIssue` (file-scoped wrapper: its own `line`,
`code`, `severity`, `issueMessage` fields plus an optional inner `hedIssue`). -/
structure BidsIssue where
  hedIssue : Option HedIssue
  line : JSPrim
  code : JSPrim
  severity : JSPrim
  issueMessage : JSPrim
deriving DecidableEq, Repr

/-- Model of the JS runtime values that reach the issue formatter and the
tool handlers. `obj` is a plain object (property map), `errObj` is an
`Error` instance (also a property map, but answering `instanceof Error`);
`issue`, `issueError` and `bidsIssue` are instances of the corresponding
hed-validator classes. -/
inductive JSVal where
  | undef
  | nullV
  | boolV (b : Bool)
  | num (n : Int)
  | str (s : String)
  | arr (elems : List JSVal)
  | obj (fields : List (String × JSVal))
  | errObj (fields : List (String × JSVal))
  | issue (i : HedIssue)
  | issueError (e : HedIssueError)
  | bidsIssue (b : BidsIssue)

/-- JS truthiness for `JSVal`. All objects (plain, Error, class instances,
arrays) are truthy. -/
def JSVal.truthy : JSVal → Bool
  | .undef => false
  | .nullV => false
  | .boolV b => b
  | .num n => n ≠ 0
  | .str s => s ≠ ""
  | _ => true

/-- JS `a || b` over `JSVal`. -/
def jsOr (a b : JSVal) : JSVal :=
  if a.truthy then a else b

/-- Property read `o[k]` on a property list; an absent property reads as
`undefined`, as in JS. -/
def propGet (fields : List (String × JSVal)) (k : String) : JSVal :=
  match fields.lookup k with
  | some v => v
  | none => JSVal.undef

/-- Parameter read `issue.parameters?.k` (absent parameter reads as
`undefined`). -/
def paramGet (params : List (String × JSPrim)) (k : String) : JSPrim :=
  match params.lookup k with
  | some v => v
  | none => JSPrim.prUndef

mutual

/-- JS `String(x)`: element-wise join for arrays (with `null`/`undefined`
elements rendered empty), `[object Object]` for plain objects and class
instances, `Error: message` for `Error` instances. Total in this model. -/
def jsToString : JSVal → String
  | .undef => "undefined"
  | .nullV => "null"
  | .boolV b => if b then "true" else "false"
  | .num n => toString n
  | .str s => s
  | .arr xs => String.intercalate "," (jsArrStrings xs)
  | .obj _ => "[object Object]"
  | .errObj fields =>
      match fields.lookup "message" with
      | some (.str m) => "Error: " ++ m
      | _ => "Error"
  | .issue _ => "[object Object]"
  | .issueError e => "Error: " ++ e.message
  | .bidsIssue _ => "[object Object]"

/-- Rendering of `Array.prototype.toString` elements: `null` and `undefined`
become the empty string, all other elements are stringified recursively. -/
def jsArrStrings : List JSVal → List String
  | [] => []
  | .nullV :: xs => "" :: jsArrStrings xs
  | .undef :: xs => "" :: jsArrStrings xs
  | x :: xs => jsToString x :: jsArrStrings xs

end

/-- The single normalized issue shape used by every tool (interface
`FormattedIssue` in `src/types/index.ts`). -/
structure FormattedIssue where
  code : String
  detailedCode : String
  severity : String
  message : String
  column : String
  line : String
  location : String
deriving DecidableEq, Repr

/-- Embeds `formatStringIssue` from `src/utils/issueFormatter.ts`. -/
def formatStringIssue (s : String) : FormattedIssue :=
  { code := "INTERNAL_ERROR"
    detailedCode := "INTERNAL_ERROR"
    severity := "error"
    message := s
    column := ""
    line := ""
    location := "" }

/-- Embeds `formatHedIssue` from `src/utils/issueFormatter.ts`: copies the coded
fields and pulls `line`/`column`/`location` from the parameters bag with
empty-string fallbacks. -/
def formatHedIssue (i : HedIssue) : FormattedIssue :=
  let line := (paramGet i.parameters "tsvLine").orElse (.prStr "")
  let column := (paramGet i.parameters "sidecarKey").orElse (.prStr "")
  let location := (paramGet i.parameters "filePath").orElse (.prStr "")
  { code := i.hedCode
    detailedCode := i.internalCode
    severity := i.level
    message := i.message
    column := column.toStr
    line := line.toStr
    location := location.toStr }

/-- Embeds `formatHedIssueError` from `src/utils/issueFormatter.ts`: recurse into
the wrapped structured issue when present, otherwise a generic
`INTERNAL_ERROR` record carrying the exception message. -/
def formatHedIssueError (e : HedIssueError) : FormattedIssue :=
  match e.inner with
  | some i => formatHedIssue i
  | none =>
    { code := "INTERNAL_ERROR"
      detailedCode := "INTERNAL_ERROR"
      severity := "error"
      message := if e.message ≠ "" then e.message else "Unknown error"
      column := ""
      line := ""
      location := "" }

/-- Embeds `formatBidsHedIssue` from `src/utils/issueFormatter.ts`: prefers the
wrapper's own fields, falls back to the inner issue's parameters, and
defaults the code to `BIDS_HED_CODE`. -/
def formatBidsHedIssue (b : BidsIssue) : FormattedIssue :=
  let innerParam : String → JSPrim := fun k =>
    match b.hedIssue with
    | some h => paramGet h.parameters k
    | none => JSPrim.prUndef
  let line := b.line.orElse ((innerParam "tsvLine").orElse (.prStr ""))
  let column := (innerParam "sidecarKey").orElse (.prStr "")
  let location := (innerParam "filePath").orElse (.prStr "")
  let detailedCode :=
    match b.hedIssue with
    | some h => if h.internalCode ≠ "" then h.internalCode else ""
    | none => ""
  let code : JSPrim :=
    match b.hedIssue with
    | some h =>
        if h.hedCode ≠ "" then .prStr h.hedCode
        else b.code.orElse (.prStr "BIDS_HED_CODE")
    | none => b.code.orElse (.prStr "BIDS_HED_CODE")
  { code := code.toStr
    detailedCode := detailedCode
    severity := b.severity.toStr
    message := b.issueMessage.toStr
    column := column.toStr
    line := line.toStr
    location := location.toStr }

/-- A thrown `TypeError`, as raised by `type.toUpperCase()` when the
selected `type`/`code` value is not a string. -/
def mkTypeError : JSVal :=
  JSVal.errObj [("name", .str "TypeError"),
                ("message", .str "type.toUpperCase is not a function")]

/-- The `type` value selected by `formatPlainObject`:
`issue.type || issue.code || "INTERNAL_ERROR"`. -/
def selectedTypeCode (fields : List (String × JSVal)) : JSVal :=
  jsOr (propGet fields "type") (jsOr (propGet fields "code") (.str "INTERNAL_ERROR"))

/-- Embeds `formatPlainObject` from `src/utils/issueFormatter.ts`: heuristic field
extraction with `||` fallback chains. `type.toUpperCase()` throws a
`TypeError` when the selected value is truthy but not a string. -/
def formatPlainObject (fields : List (String × JSVal)) : Except JSVal FormattedIssue :=
  let message := jsOr (propGet fields "message") (jsOr (propGet fields "msg")
    (jsOr (propGet fields "description") (jsOr (propGet fields "issueMessage")
      (.str "Unknown error"))))
  let severity := jsOr (propGet fields "level") (jsOr (propGet fields "severity") (.str "error"))
  let line := jsOr (propGet fields "line") (jsOr (propGet fields "tsvLine")
    (jsOr (propGet fields "lineNumber") (.str "")))
  let column := jsOr (propGet fields "column") (jsOr (propGet fields "columnNumber")
    (jsOr (propGet fields "sidecarKey") (.str "")))
  let location := jsOr (propGet fields "filePath") (.str "")
  let detailedCode := jsOr (propGet fields "subCode") (jsOr (propGet fields "internalCode") (.str ""))
  match selectedTypeCode fields with
  | .str t =>
      .ok { code := t.toUpper
            detailedCode := jsToString detailedCode
            severity := jsToString severity
            message := jsToString message
            column := jsToString column
            line := jsToString line
            location := jsToString location }
  | _ => .error mkTypeError

/-- Embeds `formatUnknownIssue` from `src/utils/issueFormatter.ts`: stringify the
value and format it as a plain-text issue.  The source guards the `String`
conversion with a try/catch; in this model the conversion is total, so the
catch arm is unreachable. -/
def formatUnknownIssue (v : JSVal) : FormattedIssue :=
  formatStringIssue (jsToString v)

/-- Embeds `formatIssue` from `src/utils/issueFormatter.ts`: shape dispatch over
the possible producer representations.  `Error` instances and plain objects
both take the plain-object branch (they satisfy
`typeof issue === "object" && issue !== null && !Array.isArray(issue)` and
are not instances of the hed-validator classes). -/
def formatIssue : JSVal → Except JSVal FormattedIssue
  | .str s => .ok (formatStringIssue s)
  | .issueError e => .ok (formatHedIssueError e)
  | .bidsIssue b => .ok (formatBidsHedIssue b)
  | .issue i => .ok (formatHedIssue i)
  | .obj fields => formatPlainObject fields
  | .errObj fields => formatPlainObject fields
  | v => .ok (formatUnknownIssue v)

/-- Embeds `formatIssues` from `src/utils/issueFormatter.ts`: format element-wise
in input order; an exception raised while formatting one element aborts the
loop and propagates. -/
def formatIssues : List JSVal → Except JSVal (List FormattedIssue)
  | [] => .ok []
  | x :: xs =>
    match formatIssue x with
    | .error e => .error e
    | .ok fi =>
      match formatIssues xs with
      | .error e => .error e
      | .ok rest => .ok (fi :: rest)

/-- The two output groups of the severity partition. -/
structure SeparatedIssues where
  errors : List FormattedIssue
  others : List FormattedIssue
deriving DecidableEq, Repr

/-- Modelled from the spec: `separateIssuesBySeverity` — its implementation
file is not part of the source snapshot (only its callers in the tool
handlers and its tests are).  Per the spec it stable-partitions a list of
formatted issues: severity exactly `"error"` goes to `errors`, everything
else to `others`, preserving relative order. -/
def separateIssuesBySeverity (l : List FormattedIssue) : SeparatedIssues :=
  { errors := l.filter (fun fi => fi.severity = "error")
    others := l.filter (fun fi => ¬ fi.severity = "error") }

/-! ## Version normalizer and schema cache (`src/utils/schemaCache.ts`) -/

/-- Splitting a character list on commas, as JS `s.split(",")`: the result is
always non-empty; `""` splits to `[""]` and empty segments are kept. -/
def splitComma : List Char → List (List Char)
  | [] => [[]]
  | c :: rest =>
    if c = ',' then [] :: splitComma rest
    else
      match splitComma rest with
      | [] => [[c]]
      | p :: ps => (c :: p) :: ps

/-- Joining parts with a bare comma, as JS `parts.join(",")`. -/
def joinComma : List (List Char) → List Char
  | [] => []
  | [p] => p
  | p :: ps => p ++ ',' :: joinComma ps

/-- JS `part.trim()` over the character list: drop whitespace from both
ends (whitespace modelled by `Char.isWhitespace`). -/
def trimChars (l : List Char) : List Char :=
  ((l.dropWhile Char.isWhitespace).reverse.dropWhile Char.isWhitespace).reverse

/-- The normalization pipeline of `normalizeVersion`: split on comma, trim
each part, drop parts that became empty, rejoin with a bare comma. -/
def normChars (l : List Char) : List Char :=
  joinComma (((splitComma l).map trimChars).filter (fun p => p ≠ []))

/-- String-level normalization core. -/
def normCore (s : String) : String :=
  String.mk (normChars s.data)

/-- Embeds `normalizeVersion` from `src/utils/schemaCache.ts` restricted to string
inputs: empty strings are falsy and returned unchanged by the guard. -/
def normalizeVersionStr (s : String) : String :=
  if s = "" then s else normCore s

/-- Embeds `normalizeVersion` from `src/utils/schemaCache.ts` on an arbitrary JS
value: the guard `if (!hedVersion || typeof hedVersion !== "string")`
passes every falsy or non-string input through unchanged. -/
def normalizeVersion : JSVal → JSVal
  | .str s => .str (normalizeVersionStr s)
  | v => v

/-- An opaque loaded-schema handle (the external loader's result). -/
abbrev Schema := Nat

/-- The `SchemaCache` state: the underlying `Map` of normalized version key
to schema handle, as an association list with unique keys. -/
structure SchemaCacheState where
  cache : List (String × Schema)
deriving DecidableEq, Repr

/-- Lookup as `Map.get`/`Map.has` on the cache contents. -/
def cacheGet (m : List (String × Schema)) (k : String) : Option Schema :=
  match m.lookup k with
  | some v => some v
  | none => none

/-- Insertion as `Map.set`: replace the value of an existing key in place, otherwise
append a new entry. -/
def mapSet (m : List (String × Schema)) (k : String) (v : Schema) : List (String × Schema) :=
  if m.any (fun p => p.1 = k) then
    m.map (fun p => if p.1 = k then (k, v) else p)
  else m ++ [(k, v)]

/-- The outcome of one `getOrCreateSchema` call: the returned-or-thrown
value, the cache state afterwards, and whether the external loader was
invoked during this call. -/
structure CacheCallResult where
  outcome : Except JSVal Schema
  state : SchemaCacheState
  loaderCalled : Bool

/-- Embeds `SchemaCache.getOrCreateSchema` from `src/utils/schemaCache.ts`: look
up the normalized key; on a hit return the cached handle without touching
the loader; on a miss call the external loader with the original raw
string, cache a successful result under the normalized key, and let a
rejection propagate unchanged without creating an entry. -/
def getOrCreateSchema (loader : String → Except JSVal Schema)
    (st : SchemaCacheState) (hedVersion : String) : CacheCallResult :=
  let key := normalizeVersionStr hedVersion
  match cacheGet st.cache key with
  | some h => { outcome := .ok h, state := st, loaderCalled := false }
  | none =>
    match loader hedVersion with
    | .ok h =>
      { outcome := .ok h
        state := { cache := mapSet st.cache key h }
        loaderCalled := true }
    | .error e => { outcome := .error e, state := st, loaderCalled := true }

/-- Embeds `SchemaCache.hasSchema`: membership of the normalized key. -/
def hasSchema (st : SchemaCacheState) (hedVersion : String) : Bool :=
  (cacheGet st.cache (normalizeVersionStr hedVersion)).isSome

/-- The record returned by `SchemaCache.getCacheStats`. -/
structure CacheStats where
  cachedVersions : List String
  cacheSize : Nat
deriving DecidableEq, Repr

/-- Embeds `SchemaCache.getCacheStats`: the cached keys and the map size. -/
def getCacheStats (st : SchemaCacheState) : CacheStats :=
  { cachedVersions := st.cache.map (fun p => p.1)
    cacheSize := st.cache.length }

/-- Embeds `SchemaCache.clearCache`. -/
def clearCache (_st : SchemaCacheState) : SchemaCacheState :=
  { cache := [] }

/-- Embeds `SchemaCache.removeSchema`: delete the normalized key, reporting
whether an entry was removed. -/
def removeSchema (st : SchemaCacheState) (hedVersion : String) :
    Bool × SchemaCacheState :=
  let key := normalizeVersionStr hedVersion
  ((cacheGet st.cache key).isSome,
   { cache := st.cache.filter (fun p => p.1 ≠ key) })

/-! ## Definition assembler (`src/utils/definitionProcessor.ts`)

The synchronous `convertDefinitions`/`createDefinitionManager`
implementation used by the current tool handlers is not part of the source
snapshot: only its tests (`tests/utils/definitionProcessor.test.ts`), its
callers and the spec describe it.  It is therefore modelled from the spec
(§4.4), with the external hed-validator operations
(`Definition.createDefinition`, `DefinitionManager.addDefinitions`) as
parameters.  -/

/-- An external hed-validator `Definition` handle, identified by its name. -/
structure HedDefinition where
  name : String
deriving DecidableEq, Repr

/-- A `DefinitionManager`: the aggregate holding a validation call's active
set of definitions.  Its contents after a batch `addDefinitions` call are
whatever the external library accepted. -/
structure DefinitionManager where
  defs : List HedDefinition
deriving DecidableEq, Repr

/-- The external hed-validator operations the assembler consumes
(spec §6): `createDef` models `parseDefinitionString(text, schemas) ->
[Definition | null, errorList, warningList]` and `addDefs` models the batch
registration `addDefinitions(definitions)`, yielding the definitions the
library's manager ends up holding together with the error and warning
issues the call reports. -/
structure DefEnv where
  createDef : String → Schema → Option HedDefinition × List JSVal × List JSVal
  addDefs : List HedDefinition → List HedDefinition × List JSVal × List JSVal

/-- The caller-supplied definition list: a JS array, or the `null` /
`undefined` sentinels the entry point accepts. -/
inductive DefInput where
  | nullIn
  | undefIn
  | listIn (l : List String)

/-- Result shape of `convertDefinitions`. -/
structure ConvertDefinitionsResult where
  definitions : List HedDefinition
  errors : List JSVal
  warnings : List JSVal

/-- Modelled from the spec: `convertDefinitions` — for each input string,
in input order, invoke the external definition parser; accumulate all
errors and all warnings into two flat lists and every successfully parsed
definition into the definitions list (a string that fails to parse
contributes no definition but may still contribute issues). -/
def convertDefinitions (env : DefEnv) (schemas : Schema) :
    List String → ConvertDefinitionsResult
  | [] => { definitions := [], errors := [], warnings := [] }
  | s :: rest =>
    let (d, es, ws) := env.createDef s schemas
    let r := convertDefinitions env schemas rest
    { definitions := (match d with | some d0 => [d0] | none => []) ++ r.definitions
      errors := es ++ r.errors
      warnings := ws ++ r.warnings }

/-- Result shape of `createDefinitionManager`. -/
structure CreateDefinitionManagerResult where
  definitionManager : Option DefinitionManager
  errors : List FormattedIssue
  warnings : List FormattedIssue

/-- Modelled from the spec: `createDefinitionManager` — an empty, `null` or
`undefined` input list short-circuits to `(null, [], [])` without touching
the schema handle; otherwise run `convertDefinitions`, and only when at
least one definition was produced and zero errors occurred register the
produced definitions into a newly constructed manager in one batch call,
appending that call's own errors and warnings; the manager object is
always constructed and returned (never `null`) once the input list is
non-empty.  All accumulated raw issues pass through the issue normalizer
(`formatIssues`), whose exceptions propagate. -/
def createDefinitionManager (env : DefEnv) (schemas : Schema) :
    DefInput → Except JSVal CreateDefinitionManagerResult
  | .nullIn => .ok { definitionManager := none, errors := [], warnings := [] }
  | .undefIn => .ok { definitionManager := none, errors := [], warnings := [] }
  | .listIn [] => .ok { definitionManager := none, errors := [], warnings := [] }
  | .listIn (s :: rest) =>
    let c := convertDefinitions env schemas (s :: rest)
    if !c.definitions.isEmpty && c.errors.isEmpty then
      let reg := env.addDefs c.definitions
      match formatIssues (c.errors ++ reg.2.1) with
      | .error e => .error e
      | .ok es =>
        match formatIssues (c.warnings ++ reg.2.2) with
        | .error e => .error e
        | .ok ws =>
          .ok { definitionManager := some { defs := reg.1 }
                errors := es
                warnings := ws }
    else
      match formatIssues c.errors with
      | .error e => .error e
      | .ok es =>
        match formatIssues c.warnings with
        | .error e => .error e
        | .ok ws =>
          .ok { definitionManager := some { defs := [] }
                errors := es
                warnings := ws }

/-! ## Tool handlers (`src/tools/…`)

Each handler is embedded as a function over an environment record holding
its external collaborators (schema loading, definition parsing, file
reading, JSON parsing, the validator objects), each of which may throw an
arbitrary JS value, modelled as `Except JSVal`.  The handlers' own
`try`/`catch` structure is reproduced; the result value is the whole
function's `Except`: a `.error` outcome means a language-level exception
escaped the handler.  Invocations of `.validate` and of the file-read
collaborator are instrumented with boolean flags. -/

/-- Extraction of the `path.basename`-style last path segment (after the last `/` or `\`). -/
def baseName (p : String) : String :=
  String.mk ((p.data.reverse.takeWhile (fun c => !(c == '/' || c == '\\'))).reverse)

/-- The value of the catch-block ternary
`error && typeof error === "object" && "message" in error ? error.message
: error instanceof Error ? error.message : "Unknown error"`
used by the string and sidecar handlers' generic catch. -/
def catchMessage (e : JSVal) : String :=
  match e with
  | .obj fields =>
    match fields.lookup "message" with
    | some v => jsToString v
    | none => "Unknown error"
  | .errObj fields => jsToString (propGet fields "message")
  | .issue i => i.message
  | .issueError ie => ie.message
  | _ => "Unknown error"

/-- The message of `error instanceof Error ? error.message : fallback`. -/
def errInstMessageOr (e : JSVal) (fallback : String) : String :=
  match e with
  | .errObj fields => jsToString (propGet fields "message")
  | .issueError ie => ie.message
  | _ => fallback

/-- Result shape of the string and sidecar handlers
(`HedValidationResult` with its `isValid` field populated). -/
structure HedStringResult where
  isValid : Bool
  errors : List FormattedIssue
  warnings : List FormattedIssue
deriving DecidableEq, Repr

/-- Result shape of the TSV handler (`errors`/`warnings` only). -/
structure HedTsvResult where
  errors : List FormattedIssue
  warnings : List FormattedIssue
deriving DecidableEq, Repr

/-- The literal error record built by the string and sidecar handlers'
outermost catch block. -/
def validationErrorResult (e : JSVal) : HedStringResult :=
  { isValid := false
    errors := [{ code := "VALIDATION_ERROR"
                 detailedCode := "VALIDATION_ERROR"
                 severity := "error"
                 message := "Validation failed: " ++ catchMessage e
                 column := ""
                 line := ""
                 location := "" }]
    warnings := [] }

/-! ### `handleValidateHedString` (`src/tools/validateHedString.ts`) -/

/-- Arguments of the string-validation tool (defaults already applied:
`checkForWarnings` defaults to `false`, `definitions` to `[]`). -/
structure StringArgs where
  hedString : String
  hedVersion : String
  checkForWarnings : Bool
  definitions : List String

/-- External collaborators of the string handler: the schema-cache load
(`schemaCache.getOrCreateSchema`) and `parseStandaloneString`, which
returns pre-separated error and warning lists (the parsed form itself is
unused by the handler). -/
structure StrEnv where
  loadSchema : String → Except JSVal Schema
  parseString : String → Schema → Except JSVal (List JSVal × List JSVal)

/-- The `try` block of `handleValidateHedString`: load the schema, skip
definition processing (the source's `definitions` branch only logs and
passes a `null` manager), parse the string, format the pre-separated
issue lists, and gate warnings on `checkForWarnings`. -/
def strBody (env : StrEnv) (args : StringArgs) : Except JSVal HedStringResult :=
  match env.loadSchema args.hedVersion with
  | .error e => .error e
  | .ok schemas =>
  match env.parseString args.hedString schemas with
  | .error e => .error e
  | .ok (errs, warns) =>
  match formatIssues errs with
  | .error e => .error e
  | .ok allErrors =>
  match formatIssues warns with
  | .error e => .error e
  | .ok allWarnings =>
  .ok { isValid := allErrors.isEmpty
        errors := allErrors
        warnings := if args.checkForWarnings then allWarnings else [] }

/-- Embeds `handleValidateHedString`: the body wrapped in the handler's catch,
which builds a literal `VALIDATION_ERROR` record (and hence cannot itself
throw). -/
def handleValidateHedString (env : StrEnv) (args : StringArgs) :
    Except JSVal HedStringResult :=
  match strBody env args with
  | .ok r => .ok r
  | .error e => .ok (validationErrorResult e)

/-! ### `handleValidateHedTsv` (`src/tools/validateHedTsv.ts`) -/

/-- Arguments of the TSV-validation tool (defaults applied by the source's
destructuring: `checkForWarnings := false`, `fileData := ''` on `undefined`,
`jsonData := ''`, `definitions := []`).  `fileData` is kept as a JS value
so that the source's `undefined`/`null`/`''` test is reproduced exactly. -/
structure TsvArgs where
  filePath : String
  hedVersion : String
  checkForWarnings : Bool
  fileData : JSVal
  jsonData : String
  definitions : List String

/-- The constructed `BidsTsvFile` object: the handler only consults its
`hasHedData` flag before calling `.validate`. -/
structure TsvFileObj where
  hasHedData : Bool
  tag : Nat
deriving DecidableEq, Repr

/-- External collaborators of the TSV handler. `mkTsvFile` models the
`BidsTsvFile` constructor applied to (file name, data, sidecar object,
definition manager); `validate` models `tsvFile.validate(schemas)`. -/
structure TsvEnv where
  loadSchema : String → Except JSVal Schema
  defEnv : DefEnv
  readFile : String → Except JSVal String
  parseJson : String → Except JSVal JSVal
  mkTsvFile : String → JSVal → JSVal → Option DefinitionManager → Except JSVal TsvFileObj
  validate : TsvFileObj → Schema → Except JSVal (List JSVal)

/-- Data acquisition step of the TSV handler: apply the destructuring
default (`fileData = ''` for an `undefined` property), and when the data is
`undefined`, `null` or `''`, read from `filePath` instead.  The second
component records whether the file-read collaborator was invoked. -/
def tsvResolveData (env : TsvEnv) (args : TsvArgs) : Except JSVal JSVal × Bool :=
  let data0 := match args.fileData with
    | .undef => JSVal.str ""
    | v => v
  let needRead := match data0 with
    | .nullV => true
    | .str s => s == ""
    | _ => false
  if needRead then
    match env.readFile args.filePath with
    | .ok content => (.ok (.str content), true)
    | .error e => (.error e, true)
  else (.ok data0, false)

/-- Sidecar-JSON step of the TSV handler: `JSON.parse(jsonData)` only when
`jsonData` is truthy, otherwise the `parsedJsonData` variable stays `null`. -/
def tsvResolveJson (env : TsvEnv) (args : TsvArgs) : Except JSVal JSVal :=
  if args.jsonData = "" then .ok .nullV else env.parseJson args.jsonData

/-- The `try` block of `handleValidateHedTsv`, instrumented: the outcome
plus whether `.validate` was invoked and whether the file was read. -/
def tsvBody (env : TsvEnv) (args : TsvArgs) :
    Except JSVal HedTsvResult × Bool × Bool :=
  match env.loadSchema args.hedVersion with
  | .error e => (.error e, false, false)
  | .ok schemas =>
  match createDefinitionManager env.defEnv schemas (.listIn args.definitions) with
  | .error e => (.error e, false, false)
  | .ok dr =>
  if dr.errors.length > 0 then
    (.ok { errors := dr.errors
           warnings := if args.checkForWarnings then dr.warnings else [] },
     false, false)
  else
  match tsvResolveData env args with
  | (.error e, rc) => (.error e, false, rc)
  | (.ok data, rc) =>
  match tsvResolveJson env args with
  | .error e => (.error e, false, rc)
  | .ok parsedJson =>
  let fname := if baseName args.filePath = "" then "events.tsv" else baseName args.filePath
  match env.mkTsvFile fname data (jsOr parsedJson (.obj [])) dr.definitionManager with
  | .error e => (.error e, false, rc)
  | .ok tsvFile =>
  if !tsvFile.hasHedData then (.ok { errors := [], warnings := [] }, false, rc)
  else
  match env.validate tsvFile schemas with
  | .error e => (.error e, true, rc)
  | .ok validationIssues =>
  match formatIssues validationIssues with
  | .error e => (.error e, true, rc)
  | .ok allFormatted =>
  let sep := separateIssuesBySeverity allFormatted
  (.ok { errors := sep.errors
         warnings := if args.checkForWarnings then dr.warnings ++ sep.others else [] },
   true, rc)

/-- One instrumented TSV handler invocation. -/
structure TsvRun where
  outcome : Except JSVal HedTsvResult
  validateCalled : Bool
  readCalled : Bool

/-- Embeds `handleValidateHedTsv`: the body wrapped in the handler's catch, which
formats the caught value through `formatIssue`; if that formatting itself
throws, the exception escapes the handler. -/
def handleValidateHedTsv (env : TsvEnv) (args : TsvArgs) : TsvRun :=
  match tsvBody env args with
  | (.ok r, vc, rc) => { outcome := .ok r, validateCalled := vc, readCalled := rc }
  | (.error e, vc, rc) =>
    match formatIssue e with
    | .ok fi =>
      { outcome := .ok { errors := [fi], warnings := [] }
        validateCalled := vc, readCalled := rc }
    | .error e2 => { outcome := .error e2, validateCalled := vc, readCalled := rc }

/-! ### `handleValidateHedSidecar` (`src/tools/validateHedSidecar.ts`) -/

/-- Arguments of the sidecar-validation tool (`fileData` defaults to `''`
on `undefined` by the source's destructuring and may be a pre-parsed
object). -/
structure SidecarArgs where
  filePath : String
  hedVersion : String
  checkForWarnings : Bool
  fileData : JSVal

/-- The constructed `BidsSidecar` object. -/
structure SidecarObj where
  tag : Nat
deriving DecidableEq, Repr

/-- External collaborators of the sidecar handler (it calls
`buildSchemasFromVersion` directly, without the cache). -/
structure SidecarEnv where
  loadSchema : String → Except JSVal Schema
  readFile : String → Except JSVal String
  parseJson : String → Except JSVal JSVal
  mkSidecar : String → JSVal → Except JSVal SidecarObj
  validate : SidecarObj → Schema → Except JSVal (List JSVal)

/-- The literal `FILE_READ_ERROR` result built by the sidecar handler's
inner read catch. -/
def fileReadErrorResult (filePath : String) (e : JSVal) : HedStringResult :=
  { isValid := false
    errors := [{ code := "FILE_READ_ERROR"
                 detailedCode := "FILE_READ_ERROR"
                 severity := "error"
                 message := "Failed to read file: " ++ errInstMessageOr e "Unknown error"
                 column := ""
                 line := ""
                 location := filePath }]
    warnings := [] }

/-- The literal `JSON_PARSE_ERROR` result built by the sidecar handler's
inner JSON catch. -/
def jsonParseErrorResult (filePath : String) (e : JSVal) : HedStringResult :=
  { isValid := false
    errors := [{ code := "JSON_PARSE_ERROR"
                 detailedCode := "JSON_PARSE_ERROR"
                 severity := "error"
                 message := "Failed to parse JSON: " ++ errInstMessageOr e "Invalid JSON format"
                 column := ""
                 line := ""
                 location := filePath }]
    warnings := [] }

/-- Construction and validation tail of the sidecar handler: build the
`BidsSidecar` from the file name and the JSON value, validate, format all
issues as errors (the source's warning separation is commented out), and
always return empty warnings. -/
def sidecarValidateStep (env : SidecarEnv) (args : SidecarArgs) (schemas : Schema)
    (jsonData : JSVal) : Except JSVal HedStringResult :=
  let fname := if baseName args.filePath = "" then "sidecar.json" else baseName args.filePath
  match env.mkSidecar fname jsonData with
  | .error e => .error e
  | .ok sc =>
  match env.validate sc schemas with
  | .error e => .error e
  | .ok issues =>
  match formatIssues issues with
  | .error e => .error e
  | .ok fes => .ok { isValid := fes.isEmpty, errors := fes, warnings := [] }

/-- JSON step of the sidecar handler: parse string data inside an inner
try (a parse failure yields the `JSON_PARSE_ERROR` result), pass non-string
data through as already parsed. -/
def sidecarAfterData (env : SidecarEnv) (args : SidecarArgs) (schemas : Schema)
    (data : JSVal) : Except JSVal HedStringResult :=
  match data with
  | .str s =>
    match env.parseJson s with
    | .error e => .ok (jsonParseErrorResult args.filePath e)
    | .ok j => sidecarValidateStep env args schemas j
  | v => sidecarValidateStep env args schemas v

/-- The `try` block of `handleValidateHedSidecar`, instrumented with the
file-read flag: load the schema, apply the `fileData` default and the
`undefined`/`null`/`''` fallback-to-read test, then the JSON and
validation steps. -/
def sidecarBody (env : SidecarEnv) (args : SidecarArgs) :
    Except JSVal HedStringResult × Bool :=
  match env.loadSchema args.hedVersion with
  | .error e => (.error e, false)
  | .ok schemas =>
  let data0 := match args.fileData with
    | .undef => JSVal.str ""
    | v => v
  let needRead := match data0 with
    | .nullV => true
    | .str s => s == ""
    | _ => false
  if needRead then
    match env.readFile args.filePath with
    | .error e => (.ok (fileReadErrorResult args.filePath e), true)
    | .ok content => (sidecarAfterData env args schemas (.str content), true)
  else (sidecarAfterData env args schemas data0, false)

/-- One instrumented sidecar handler invocation. -/
structure SidecarRun where
  outcome : Except JSVal HedStringResult
  readCalled : Bool

/-- Embeds `handleValidateHedSidecar`: the body wrapped in the handler's catch,
which builds a literal `VALIDATION_ERROR` record (and hence cannot itself
throw). -/
def handleValidateHedSidecar (env : SidecarEnv) (args : SidecarArgs) : SidecarRun :=
  match sidecarBody env args with
  | (.ok r, rc) => { outcome := .ok r, readCalled := rc }
  | (.error e, rc) => { outcome := .ok (validationErrorResult e), readCalled := rc }

/-! ## Lemmas about the version normalizer -/

/-- JS `split` never yields an empty part list. -/
theorem splitComma_ne_nil (l : List Char) : splitComma l ≠ [] := by
  induction l with
  | nil => simp [splitComma]
  | cons c rest ih =>
    by_cases hc : c = ','
    · simp [splitComma, hc]
    · cases h : splitComma rest with
      | nil => exact absurd h ih
      | cons q qs => simp [splitComma, hc, h]

/-- Every part produced by splitting on commas is comma-free. -/
theorem mem_splitComma_not_comma :
    ∀ l : List Char, ∀ p ∈ splitComma l, ',' ∉ p := by
  intro l
  induction l with
  | nil =>
    intro p hp
    simp [splitComma] at hp
    simp [hp]
  | cons c rest ih =>
    intro p hp
    by_cases hc : c = ','
    · simp [splitComma, hc] at hp
      rcases hp with hp | hp
      · simp [hp]
      · exact ih p hp
    · cases h : splitComma rest with
      | nil => exact absurd h (splitComma_ne_nil rest)
      | cons q qs =>
        simp [splitComma, hc, h] at hp
        rcases hp with hp | hp
        · subst hp
          intro hmem
          rcases List.mem_cons.mp hmem with h1 | h1
          · exact hc h1.symm
          · exact ih q (by simp [h]) h1
        · exact ih p (by simp [h, hp])

/-- Elements surviving `dropWhile` were in the original list. -/
theorem mem_of_mem_dropWhile {p : Char → Bool} {l : List Char} {a : Char}
    (h : a ∈ l.dropWhile p) : a ∈ l := by
  induction l with
  | nil => simp [List.dropWhile] at h
  | cons c rest ih =>
    by_cases hc : p c
    · simp [List.dropWhile, hc] at h
      exact List.mem_cons_of_mem c (ih h)
    · simp [List.dropWhile, hc] at h
      simpa using h

/-- Elements of a trimmed list were in the original list. -/
theorem mem_of_mem_trimChars {l : List Char} {a : Char}
    (h : a ∈ trimChars l) : a ∈ l := by
  unfold trimChars at h
  rw [List.mem_reverse] at h
  have h1 := mem_of_mem_dropWhile h
  rw [List.mem_reverse] at h1
  exact mem_of_mem_dropWhile h1

/-- The head surviving `dropWhile` fails the predicate. -/
theorem head?_dropWhile_false (p : Char → Bool) (l : List Char) (a : Char)
    (h : (l.dropWhile p).head? = some a) : p a = false := by
  induction l with
  | nil => simp [List.dropWhile] at h
  | cons c rest ih =>
    by_cases hc : p c
    · simp [List.dropWhile, hc] at h
      exact ih h
    · simp [List.dropWhile, hc] at h
      subst h
      simpa using hc

/-- A list whose head fails the predicate is unchanged by `dropWhile`. -/
theorem dropWhile_eq_self_of_head (p : Char → Bool) (l : List Char)
    (h : ∀ a, l.head? = some a → p a = false) : l.dropWhile p = l := by
  cases l with
  | nil => rfl
  | cons c rest => simp [List.dropWhile, h c rfl]

/-- Lemma: `dropWhile` only removes leading elements. -/
theorem dropWhile_drops_front (p : Char → Bool) (l : List Char) :
    ∃ t, t ++ l.dropWhile p = l := by
  induction l with
  | nil => exact ⟨[], rfl⟩
  | cons c rest ih =>
    by_cases hc : p c
    · obtain ⟨t, ht⟩ := ih
      exact ⟨c :: t, by simp [List.dropWhile, hc, ht]⟩
    · exact ⟨[], by simp [List.dropWhile, hc]⟩

/-- Trimming is idempotent. -/
theorem trimChars_idem (l : List Char) : trimChars (trimChars l) = trimChars l := by
  unfold trimChars
  have hmm : ∀ x : List Char,
      (x.dropWhile Char.isWhitespace).dropWhile Char.isWhitespace
        = x.dropWhile Char.isWhitespace := by
    intro x
    apply dropWhile_eq_self_of_head
    intro a ha
    exact head?_dropWhile_false Char.isWhitespace x a ha
  have hrev : ∀ x : List Char,
      (((x.dropWhile Char.isWhitespace).reverse.dropWhile Char.isWhitespace).reverse).dropWhile
          Char.isWhitespace
        = ((x.dropWhile Char.isWhitespace).reverse.dropWhile Char.isWhitespace).reverse := by
    intro x
    apply dropWhile_eq_self_of_head
    intro a ha
    rw [List.head?_reverse] at ha
    have hm_ne :
        (x.dropWhile Char.isWhitespace).reverse.dropWhile Char.isWhitespace ≠ [] := by
      intro h0
      rw [h0] at ha
      simp at ha
    obtain ⟨t, ht⟩ :=
      dropWhile_drops_front Char.isWhitespace (x.dropWhile Char.isWhitespace).reverse
    have hlast := List.getLast?_append_of_ne_nil t hm_ne
    rw [ht] at hlast
    have h2 : (x.dropWhile Char.isWhitespace).reverse.getLast?
        = (x.dropWhile Char.isWhitespace).head? := by
      rw [← List.head?_reverse, List.reverse_reverse]
    have h3 : (x.dropWhile Char.isWhitespace).head? = some a := by
      rw [← h2, hlast]
      exact ha
    exact head?_dropWhile_false Char.isWhitespace x a h3
  rw [hrev l, List.reverse_reverse, hmm]

/-- Unfolding equation of `splitComma` at a non-comma head. -/
theorem splitComma_cons_ne (c : Char) (rest : List Char) (hc : ¬ c = ',') :
    splitComma (c :: rest)
      = match splitComma rest with
        | [] => [[c]]
        | p :: ps => (c :: p) :: ps := by
  simp [splitComma, hc]

/-- A comma-free list commutes with a split across an append:
splitting `p ++ s` prepends `p` to the first part of splitting `s`. -/
theorem splitComma_append (p : List Char) (hp : ',' ∉ p) (s : List Char)
    (q : List Char) (qs : List (List Char)) (h : splitComma s = q :: qs) :
    splitComma (p ++ s) = (p ++ q) :: qs := by
  induction p with
  | nil => simpa using h
  | cons c p' ih =>
    have hc : ¬ c = ',' := fun hcc => hp (by simp [hcc])
    have hp' : ',' ∉ p' := fun hmem => hp (List.mem_cons_of_mem c hmem)
    have ih' := ih hp'
    rw [List.cons_append, splitComma_cons_ne c (p' ++ s) hc, ih']
    rfl

/-- Splitting undoes joining for a non-empty list of comma-free parts. -/
theorem splitComma_joinComma :
    ∀ ps : List (List Char), ps ≠ [] → (∀ p ∈ ps, ',' ∉ p) →
      splitComma (joinComma ps) = ps := by
  intro ps
  induction ps with
  | nil => intro h; exact absurd rfl h
  | cons p rest ih =>
    intro _ hall
    cases rest with
    | nil =>
      have hp : ',' ∉ p := hall p (by simp)
      have h0 : splitComma ([] : List Char) = [] :: [] := rfl
      have := splitComma_append p hp [] [] [] h0
      simpa [joinComma] using this
    | cons p2 rest2 =>
      have hp : ',' ∉ p := hall p (by simp)
      have hrest : ∀ x ∈ p2 :: rest2, ',' ∉ x := fun x hx =>
        hall x (List.mem_cons_of_mem p hx)
      have hjoin := ih (by simp) hrest
      have hsplit : splitComma (',' :: joinComma (p2 :: rest2))
          = [] :: (p2 :: rest2) := by
        simp [splitComma, hjoin]
      have := splitComma_append p hp (',' :: joinComma (p2 :: rest2)) [] (p2 :: rest2) hsplit
      simpa [joinComma] using this

/-- Mapping a function that fixes every element is the identity. -/
theorem map_eq_self_of_fixed {α : Type} (f : α → α) :
    ∀ l : List α, (∀ x ∈ l, f x = x) → l.map f = l := by
  intro l
  induction l with
  | nil => intro _; rfl
  | cons a rest ih =>
    intro h
    simp [h a (by simp), ih (fun x hx => h x (List.mem_cons_of_mem a hx))]

/-- The whole normalization pipeline over character lists is idempotent. -/
theorem normChars_idem (l : List Char) : normChars (normChars l) = normChars l := by
  have hall : ∀ x ∈ ((splitComma l).map trimChars).filter (fun p => p ≠ []),
      x ≠ [] ∧ trimChars x = x ∧ ',' ∉ x := by
    intro x hx
    rw [List.mem_filter] at hx
    obtain ⟨hx1, hx2⟩ := hx
    obtain ⟨q, hq, hqx⟩ := List.mem_map.mp hx1
    refine ⟨by simpa using hx2, ?_, ?_⟩
    · rw [← hqx]
      exact trimChars_idem q
    · intro hmem
      rw [← hqx] at hmem
      exact mem_splitComma_not_comma l q hq (mem_of_mem_trimChars hmem)
  unfold normChars
  cases hPe : ((splitComma l).map trimChars).filter (fun p => p ≠ []) with
  | nil => rfl
  | cons p ps =>
    have h1 : splitComma (joinComma (p :: ps)) = p :: ps := by
      apply splitComma_joinComma (p :: ps) (by simp)
      intro x hx
      exact (hall x (by rw [hPe]; exact hx)).2.2
    rw [h1]
    have h2 : (p :: ps).map trimChars = p :: ps := by
      apply map_eq_self_of_fixed
      intro x hx
      exact (hall x (by rw [hPe]; exact hx)).2.1
    rw [h2]
    have h3 : (p :: ps).filter (fun x => x ≠ []) = p :: ps := by
      apply List.filter_eq_self.mpr
      intro x hx
      simpa using (hall x (by rw [hPe]; exact hx)).1
    rw [h3]

/-- String-level idempotence of the normalization core. -/
theorem normCore_idem (s : String) : normCore (normCore s) = normCore s := by
  unfold normCore
  exact congrArg String.mk (normChars_idem s.data)

/-- Idempotence of `normalizeVersion` on strings, guard included. -/
theorem normalizeVersionStr_idem (s : String) :
    normalizeVersionStr (normalizeVersionStr s) = normalizeVersionStr s := by
  unfold normalizeVersionStr
  by_cases hs : s = ""
  · simp [hs]
  · simp only [if_neg hs]
    by_cases hr : normCore s = ""
    · simp [hr]
    · simp [if_neg hr, normCore_idem]

/-! ## Claim C9 -/

/-- C9: for every string `s`, `normalizeVersion (normalizeVersion s) =
normalizeVersion s` — the version normalizer is idempotent, including on
non-string and empty inputs, which are passed through unchanged. -/
theorem claim_C9_normalizeVersion_idempotent :
    (∀ v : JSVal, normalizeVersion (normalizeVersion v) = normalizeVersion v) ∧
    (∀ v : JSVal, (∀ s, v ≠ JSVal.str s) → normalizeVersion v = v) ∧
    normalizeVersion (.str "") = .str "" := by
  refine ⟨?_, ?_, rfl⟩
  · intro v
    cases v with
    | str s =>
      show JSVal.str (normalizeVersionStr (normalizeVersionStr s))
          = JSVal.str (normalizeVersionStr s)
      rw [normalizeVersionStr_idem]
    | undef => rfl
    | nullV => rfl
    | boolV b => rfl
    | num n => rfl
    | arr xs => rfl
    | obj f => rfl
    | errObj f => rfl
    | issue i => rfl
    | issueError e => rfl
    | bidsIssue b => rfl
  · intro v hv
    cases v with
    | str s => exact absurd rfl (hv s)
    | undef => rfl
    | nullV => rfl
    | boolV b => rfl
    | num n => rfl
    | arr xs => rfl
    | obj f => rfl
    | errObj f => rfl
    | issue i => rfl
    | issueError e => rfl
    | bidsIssue b => rfl

/-- Witness for C9 at concrete inputs: idempotence on a string with spaces
and empty parts, and passthrough of a non-string value. -/
theorem claim_C9_witness :
    normalizeVersion (normalizeVersion (.str " 8.4.0,, lib_1.0.0 "))
      = normalizeVersion (.str " 8.4.0,, lib_1.0.0 ") ∧
    normalizeVersion (.num 5) = .num 5 := by
  refine ⟨claim_C9_normalizeVersion_idempotent.1 _, ?_⟩
  exact claim_C9_normalizeVersion_idempotent.2.1 (.num 5) (fun s h => by cases h)

/-! ## Claim C3 -/

/-- C3: starting from an empty cache, with a loader that succeeds on both
version strings, if the two strings normalize to the same key the loader is
invoked exactly once (on the first call only) and both calls return the
same handle; if they normalize to different keys the loader is invoked on
both calls and the cache statistics then report size 2. -/
theorem claim_C3_cache_load_once (loader : String → Except JSVal Schema)
    (v1 v2 : String) (h1 h2 : Schema)
    (hl1 : loader v1 = .ok h1) (hl2 : loader v2 = .ok h2) :
    (normalizeVersionStr v1 = normalizeVersionStr v2 →
      (getOrCreateSchema loader ⟨[]⟩ v1).outcome = .ok h1 ∧
      (getOrCreateSchema loader ⟨[]⟩ v1).loaderCalled = true ∧
      (getOrCreateSchema loader (getOrCreateSchema loader ⟨[]⟩ v1).state v2).loaderCalled
        = false ∧
      (getOrCreateSchema loader (getOrCreateSchema loader ⟨[]⟩ v1).state v2).outcome
        = (getOrCreateSchema loader ⟨[]⟩ v1).outcome) ∧
    (normalizeVersionStr v1 ≠ normalizeVersionStr v2 →
      (getOrCreateSchema loader ⟨[]⟩ v1).loaderCalled = true ∧
      (getOrCreateSchema loader (getOrCreateSchema loader ⟨[]⟩ v1).state v2).loaderCalled
        = true ∧
      (getCacheStats
        (getOrCreateSchema loader (getOrCreateSchema loader ⟨[]⟩ v1).state v2).state).cacheSize
        = 2) := by
  have hfirst : getOrCreateSchema loader ⟨[]⟩ v1
      = { outcome := .ok h1
          state := ⟨[(normalizeVersionStr v1, h1)]⟩
          loaderCalled := true } := by
    simp [getOrCreateSchema, cacheGet, mapSet, hl1, List.lookup]
  constructor
  · intro hsame
    rw [hfirst]
    have hsecond : getOrCreateSchema loader ⟨[(normalizeVersionStr v1, h1)]⟩ v2
        = { outcome := .ok h1
            state := ⟨[(normalizeVersionStr v1, h1)]⟩
            loaderCalled := false } := by
      simp [getOrCreateSchema, cacheGet, List.lookup, ← hsame]
    rw [hsecond]
    exact ⟨rfl, rfl, rfl, rfl⟩
  · intro hdiff
    rw [hfirst]
    have hne : (normalizeVersionStr v2 == normalizeVersionStr v1) = false := by
      simp [Ne.symm hdiff]
    have hsecond : getOrCreateSchema loader ⟨[(normalizeVersionStr v1, h1)]⟩ v2
        = { outcome := .ok h2
            state := ⟨[(normalizeVersionStr v1, h1), (normalizeVersionStr v2, h2)]⟩
            loaderCalled := true } := by
      simp [getOrCreateSchema, cacheGet, List.lookup, hne, hl2, mapSet, hdiff]
    rw [hsecond]
    exact ⟨rfl, rfl, rfl⟩

/-- Witness for C3: a concrete loader and the equivalent version strings
`" 8.4.0"` and `"8.4.0"` exercise the same-key half of the theorem. -/
theorem claim_C3_witness :
    (getOrCreateSchema (fun _ => .ok 7) ⟨[]⟩ " 8.4.0").outcome = .ok 7 ∧
    (getOrCreateSchema (fun _ => .ok 7)
        (getOrCreateSchema (fun _ => .ok 7) ⟨[]⟩ " 8.4.0").state "8.4.0").loaderCalled
      = false := by
  have h := (claim_C3_cache_load_once (fun _ => .ok 7) " 8.4.0" "8.4.0" 7 7 rfl rfl).1
    (by decide)
  exact ⟨h.1, h.2.2.1⟩

/-! ## Claim C4 -/

/-- C4: when the version is not cached and the external loader rejects, the
rejection propagates unchanged, no cache entry is created (the state is
unchanged and `hasSchema` stays false), the loader was invoked, and a
subsequent call invokes the loader again. -/
theorem claim_C4_loader_failure_not_cached (loader : String → Except JSVal Schema)
    (st : SchemaCacheState) (v : String) (e : JSVal)
    (hmiss : cacheGet st.cache (normalizeVersionStr v) = none)
    (hl : loader v = .error e) :
    (getOrCreateSchema loader st v).outcome = .error e ∧
    (getOrCreateSchema loader st v).state = st ∧
    hasSchema (getOrCreateSchema loader st v).state v = false ∧
    (getOrCreateSchema loader st v).loaderCalled = true ∧
    (getOrCreateSchema loader (getOrCreateSchema loader st v).state v).loaderCalled
      = true := by
  have hcall : getOrCreateSchema loader st v
      = { outcome := .error e, state := st, loaderCalled := true } := by
    simp [getOrCreateSchema, hmiss, hl]
  rw [hcall]
  refine ⟨rfl, rfl, ?_, rfl, ?_⟩
  · simp [hasSchema, hmiss]
  · simp [getOrCreateSchema, hmiss, hl]

/-- Witness for C4 at a concrete failing loader. -/
theorem claim_C4_witness :
    (getOrCreateSchema (fun _ => .error (.str "boom")) ⟨[]⟩ "bad").outcome
      = .error (.str "boom") ∧
    hasSchema (getOrCreateSchema (fun _ => .error (.str "boom")) ⟨[]⟩ "bad").state "bad"
      = false := by
  have h := claim_C4_loader_failure_not_cached (fun _ => .error (.str "boom"))
    ⟨[]⟩ "bad" (.str "boom") rfl rfl
  exact ⟨h.1, h.2.2.1⟩

/-! ## Claim C2 -/

/-- The condition under which `formatPlainObject` throws: the selected
`type`/`code` value (the `||` chain with the `INTERNAL_ERROR` default) is
not a string, so `toUpperCase` is not a function on it. -/
def badTypeCode (fields : List (String × JSVal)) : Bool :=
  match selectedTypeCode fields with
  | .str _ => false
  | _ => true

/-- Inputs on which `formatIssue` throws: plain objects and `Error`
instances with a bad `type`/`code` selection; every other shape formats
totally. -/
def badPlainObj : JSVal → Bool
  | .obj fields => badTypeCode fields
  | .errObj fields => badTypeCode fields
  | _ => false

/-- Lemma: `formatIssue` succeeds exactly on the inputs that are not bad plain
objects. -/
theorem formatIssue_isOk (x : JSVal) : (formatIssue x).isOk = !badPlainObj x := by
  cases x with
  | obj fields =>
    show (formatPlainObject fields).isOk = !badTypeCode fields
    unfold formatPlainObject badTypeCode
    cases selectedTypeCode fields <;> simp [Except.isOk, Except.toBool]
  | errObj fields =>
    show (formatPlainObject fields).isOk = !badTypeCode fields
    unfold formatPlainObject badTypeCode
    cases selectedTypeCode fields <;> simp [Except.isOk, Except.toBool]
  | undef => rfl
  | nullV => rfl
  | boolV b => rfl
  | num n => rfl
  | str s => rfl
  | arr xs => rfl
  | issue i => rfl
  | issueError e => rfl
  | bidsIssue b => rfl

/-- When `formatIssues` succeeds, the output has the input's length and is
`formatIssue` applied element-wise in input order. -/
theorem formatIssues_elementwise :
    ∀ (l : List JSVal) (fis : List FormattedIssue), formatIssues l = .ok fis →
      fis.length = l.length ∧
      ∀ i (hi : i < l.length) (hf : i < fis.length),
        formatIssue (l.get ⟨i, hi⟩) = .ok (fis.get ⟨i, hf⟩) := by
  intro l
  induction l with
  | nil =>
    intro fis h
    simp [formatIssues] at h
    subst h
    exact ⟨rfl, fun i hi _ => absurd hi (by simp)⟩
  | cons x xs ih =>
    intro fis h
    unfold formatIssues at h
    cases hfx : formatIssue x with
    | error e => rw [hfx] at h; cases h
    | ok fi =>
      rw [hfx] at h
      cases hrest : formatIssues xs with
      | error e => rw [hrest] at h; cases h
      | ok rest =>
        rw [hrest] at h
        cases h
        obtain ⟨hlen, helem⟩ := ih rest hrest
        refine ⟨by simp [hlen], ?_⟩
        intro i hi hf
        cases i with
        | zero => simpa using hfx
        | succ j =>
          exact helem j (by simpa using hi) (by simpa using hf)

/-- When no element is a bad plain object, `formatIssues` succeeds. -/
theorem formatIssues_isOk_of_safe :
    ∀ l : List JSVal, (∀ x ∈ l, badPlainObj x = false) →
      (formatIssues l).isOk = true := by
  intro l
  induction l with
  | nil => intro _; rfl
  | cons x xs ih =>
    intro hall
    have hx : (formatIssue x).isOk = true := by
      rw [formatIssue_isOk, hall x (by simp)]
      rfl
    have hxs := ih (fun y hy => hall y (List.mem_cons_of_mem x hy))
    unfold formatIssues
    cases hfx : formatIssue x with
    | error e => rw [hfx] at hx; cases hx
    | ok fi =>
      cases hrest : formatIssues xs with
      | error e => rw [hrest] at hxs; cases hxs
      | ok rest => rfl

/-- C2 (amended): `formatIssues` applies `formatIssue` element-wise,
preserving input order and length, and succeeds whenever every element
formats without throwing; `formatIssue` never throws except on a plain
object (or `Error` instance) whose `type`/`code` selection is a truthy
non-string, on which both functions throw a `TypeError`. -/
theorem claim_C2_formatIssues_elementwise_throw_condition :
    (∀ x : JSVal, (formatIssue x).isOk = !badPlainObj x) ∧
    (∀ (l : List JSVal) (fis : List FormattedIssue), formatIssues l = .ok fis →
      fis.length = l.length ∧
      ∀ i (hi : i < l.length) (hf : i < fis.length),
        formatIssue (l.get ⟨i, hi⟩) = .ok (fis.get ⟨i, hf⟩)) ∧
    (∀ l : List JSVal, (∀ x ∈ l, badPlainObj x = false) →
      (formatIssues l).isOk = true) :=
  ⟨formatIssue_isOk, formatIssues_elementwise, formatIssues_isOk_of_safe⟩

/-- Counterexample to C2 as stated: on the arbitrary object
`\x7b code: 5 \x7d` the formatter throws (`5.toUpperCase()` is not a
function), so `formatIssues` neither returns an array nor avoids
exceptions. -/
theorem claim_C2_counterexample :
    formatIssues [JSVal.obj [("code", .num 5)]] = .error mkTypeError ∧
    (formatIssue (JSVal.obj [("code", .num 5)])).isOk = false := ⟨rfl, rfl⟩

/-- Witness for C2 (amended) on a concrete mixed list. -/
theorem claim_C2_witness :
    (formatIssues [JSVal.str "a", JSVal.num 3]).isOk = true ∧
    ([formatStringIssue "a", formatStringIssue "3"] : List FormattedIssue).length
      = [JSVal.str "a", JSVal.num 3].length := by
  have h := claim_C2_formatIssues_elementwise_throw_condition
  constructor
  · exact h.2.2 [JSVal.str "a", JSVal.num 3] (by decide)
  · exact (h.2.1 [JSVal.str "a", JSVal.num 3]
      [formatStringIssue "a", formatStringIssue "3"] rfl).1

/-! ## Claim C1 -/

/-- C1: `createDefinitionManager` returns a `null` manager with empty
errors and warnings on an empty, `null` or `undefined` definition list, and
a non-null manager on every non-empty list. -/
theorem claim_C1_manager_null_only_on_empty (env : DefEnv) (schemas : Schema) :
    createDefinitionManager env schemas .nullIn
      = .ok { definitionManager := none, errors := [], warnings := [] } ∧
    createDefinitionManager env schemas .undefIn
      = .ok { definitionManager := none, errors := [], warnings := [] } ∧
    createDefinitionManager env schemas (.listIn [])
      = .ok { definitionManager := none, errors := [], warnings := [] } ∧
    (∀ (l : List String) (r : CreateDefinitionManagerResult), l ≠ [] →
      createDefinitionManager env schemas (.listIn l) = .ok r →
      r.definitionManager ≠ none) := by
  refine ⟨rfl, rfl, rfl, ?_⟩
  intro l r hl h
  cases l with
  | nil => exact absurd rfl hl
  | cons s rest =>
    dsimp only [createDefinitionManager] at h
    split at h
    · cases hes : formatIssues ((convertDefinitions env schemas (s :: rest)).errors ++
          (env.addDefs (convertDefinitions env schemas (s :: rest)).definitions).2.1) with
      | error e => rw [hes] at h; exact Except.noConfusion h
      | ok es =>
        rw [hes] at h
        cases hws : formatIssues ((convertDefinitions env schemas (s :: rest)).warnings ++
            (env.addDefs (convertDefinitions env schemas (s :: rest)).definitions).2.2) with
        | error e => rw [hws] at h; exact Except.noConfusion h
        | ok ws =>
          rw [hws] at h
          cases h
          simp
    · cases hes : formatIssues (convertDefinitions env schemas (s :: rest)).errors with
      | error e => rw [hes] at h; exact Except.noConfusion h
      | ok es =>
        rw [hes] at h
        cases hws : formatIssues (convertDefinitions env schemas (s :: rest)).warnings with
        | error e => rw [hws] at h; exact Except.noConfusion h
        | ok ws =>
          rw [hws] at h
          cases h
          simp

/-- A definition-parser environment on which every string fails to parse
with one error issue. -/
def defEnvAllFail : DefEnv :=
  { createDef := fun s _ => (none, [.str ("Failed to parse: " ++ s)], [])
    addDefs := fun ds => (ds, [], []) }

/-- Witness for C1: on a singleton list whose only string fails to parse,
the manager is still non-null. -/
theorem claim_C1_witness :
    createDefinitionManager defEnvAllFail 0 (.listIn ["(Definition/X, (Red))"])
      = .ok { definitionManager := some { defs := [] }
              errors := [formatStringIssue "Failed to parse: (Definition/X, (Red))"]
              warnings := [] } ∧
    ({ definitionManager := some { defs := [] }
       errors := [formatStringIssue "Failed to parse: (Definition/X, (Red))"]
       warnings := [] } : CreateDefinitionManagerResult).definitionManager ≠ none := by
  constructor
  · rfl
  · exact (claim_C1_manager_null_only_on_empty defEnvAllFail 0).2.2.2
      ["(Definition/X, (Red))"] _ (by simp) rfl

/-! ## Claim C5 -/

/-- C5 (amended): when any definition string fails to parse (the
conversion step reports errors), the result carries a non-empty error list
and the manager is the freshly constructed empty one (registration is
skipped, so it holds zero of the successfully-parsed definitions); when
conversion succeeds but the batch registration reports errors, the result
carries a non-empty error list, while the manager holds whatever
definitions the library's batch-add accepted (not necessarily zero). -/
theorem claim_C5_failure_shortcircuit (env : DefEnv) (schemas : Schema)
    (l : List String) (r : CreateDefinitionManagerResult) (hl : l ≠ [])
    (h : createDefinitionManager env schemas (.listIn l) = .ok r) :
    ((convertDefinitions env schemas l).errors ≠ [] →
      r.errors ≠ [] ∧ r.definitionManager = some { defs := [] }) ∧
    ((convertDefinitions env schemas l).errors = [] →
      (convertDefinitions env schemas l).definitions ≠ [] →
      (env.addDefs (convertDefinitions env schemas l).definitions).2.1 ≠ [] →
      r.errors ≠ []) := by
  cases l with
  | nil => exact absurd rfl hl
  | cons s rest =>
    dsimp only [createDefinitionManager] at h
    split at h
    · rename_i hcond
      rw [Bool.and_eq_true] at hcond
      have herr : (convertDefinitions env schemas (s :: rest)).errors = [] :=
        List.isEmpty_iff.mp hcond.2
      constructor
      · intro hne
        exact absurd herr hne
      · intro _ _ hreg
        cases hes : formatIssues ((convertDefinitions env schemas (s :: rest)).errors ++
            (env.addDefs (convertDefinitions env schemas (s :: rest)).definitions).2.1) with
        | error e => rw [hes] at h; exact Except.noConfusion h
        | ok es =>
          rw [hes] at h
          cases hws : formatIssues ((convertDefinitions env schemas (s :: rest)).warnings ++
              (env.addDefs (convertDefinitions env schemas (s :: rest)).definitions).2.2) with
          | error e => rw [hws] at h; exact Except.noConfusion h
          | ok ws =>
            rw [hws] at h
            cases h
            obtain ⟨hlen, _⟩ := formatIssues_elementwise _ _ hes
            rw [herr] at hlen
            simp only [List.nil_append] at hlen
            intro habs
            have habs2 : es = [] := habs
            simp only [habs2, List.length_nil] at hlen
            exact hreg (List.eq_nil_of_length_eq_zero hlen.symm)
    · rename_i hcond
      constructor
      · intro hne
        cases hes : formatIssues (convertDefinitions env schemas (s :: rest)).errors with
        | error e => rw [hes] at h; exact Except.noConfusion h
        | ok es =>
          rw [hes] at h
          cases hws : formatIssues (convertDefinitions env schemas (s :: rest)).warnings with
          | error e => rw [hws] at h; exact Except.noConfusion h
          | ok ws =>
            rw [hws] at h
            cases h
            obtain ⟨hlen, _⟩ := formatIssues_elementwise _ _ hes
            refine ⟨?_, by simp⟩
            intro habs
            have habs2 : es = [] := habs
            simp only [habs2, List.length_nil] at hlen
            exact hne (List.eq_nil_of_length_eq_zero hlen.symm)
      · intro hno hdefs _
        have hcond2 : (!(convertDefinitions env schemas (s :: rest)).definitions.isEmpty &&
            (convertDefinitions env schemas (s :: rest)).errors.isEmpty) = true := by
          simp [List.isEmpty_iff, hdefs, hno]
        simp [hcond2] at hcond

/-- A definition environment mirroring the repository's own test
"should handle conflicting definitions": both strings parse to a
definition named `ValidDef`; the batch registration keeps the first and
reports a duplicate-name error. -/
def defEnvConflict : DefEnv :=
  { createDef := fun s _ =>
      if s = "(Definition/ValidDef, (Green))" then (some ⟨"ValidDef"⟩, [], [])
      else if s = "(Definition/ValidDef, (Red))" then (some ⟨"ValidDef"⟩, [], [])
      else (none, [.str "parse failure"], [])
    addDefs := fun ds =>
      match ds with
      | [] => ([], [], [])
      | d :: rest =>
        ([d], if rest.isEmpty then [] else [.str "Duplicate definition name: ValidDef"], []) }

/-- Counterexample to C5 as stated: with two same-named definitions the
batch registration fails, the errors list is non-empty, yet the returned
manager holds one of the successfully-parsed definitions — not zero. -/
theorem claim_C5_counterexample :
    createDefinitionManager defEnvConflict 0
        (.listIn ["(Definition/ValidDef, (Green))", "(Definition/ValidDef, (Red))"])
      = .ok { definitionManager := some { defs := [⟨"ValidDef"⟩] }
              errors := [formatStringIssue "Duplicate definition name: ValidDef"]
              warnings := [] } ∧
    HedDefinition.mk "ValidDef"
      ∈ (convertDefinitions defEnvConflict 0
          ["(Definition/ValidDef, (Green))", "(Definition/ValidDef, (Red))"]).definitions := by
  exact ⟨rfl, by simp [convertDefinitions, defEnvConflict]⟩

/-- Witness for C5 (amended), parse-failure half, at the all-failing
environment. -/
theorem claim_C5_witness :
    ({ definitionManager := some { defs := [] }
       errors := [formatStringIssue "Failed to parse: (Definition/Y, (Red))"]
       warnings := [] } : CreateDefinitionManagerResult).errors ≠ [] ∧
    ({ definitionManager := some { defs := [] }
       errors := [formatStringIssue "Failed to parse: (Definition/Y, (Red))"]
       warnings := [] } : CreateDefinitionManagerResult).definitionManager
      = some { defs := [] } := by
  have h := (claim_C5_failure_shortcircuit defEnvAllFail 0 ["(Definition/Y, (Red))"]
    { definitionManager := some { defs := [] }
      errors := [formatStringIssue "Failed to parse: (Definition/Y, (Red))"]
      warnings := [] } (by simp) rfl).1
    (by simp [convertDefinitions, defEnvAllFail])
  exact h

/-! ## Claim C6 -/

/-- C6 (amended): no language-level exception escapes
`handleValidateHedString` or `handleValidateHedSidecar` (their catch blocks
build literal records); for `handleValidateHedTsv` the only possible escape
is the `TypeError` raised when the catch block's own `formatIssue`
conversion of the caught value throws — which happens exactly for caught
plain-object values whose `type`/`code` selection is a truthy non-string. -/
theorem claim_C6_no_exception_escape :
    (∀ (env : StrEnv) (args : StringArgs),
      (handleValidateHedString env args).isOk = true) ∧
    (∀ (env : SidecarEnv) (args : SidecarArgs),
      (handleValidateHedSidecar env args).outcome.isOk = true) ∧
    (∀ (env : TsvEnv) (args : TsvArgs) (e2 : JSVal),
      (handleValidateHedTsv env args).outcome = .error e2 →
      ∃ e, formatIssue e = .error e2 ∧ badPlainObj e = true) := by
  refine ⟨?_, ?_, ?_⟩
  · intro env args
    unfold handleValidateHedString
    cases strBody env args <;> rfl
  · intro env args
    unfold handleValidateHedSidecar
    rcases hsb : sidecarBody env args with ⟨res, rc⟩
    cases res <;> rfl
  · intro env args e2 hout
    unfold handleValidateHedTsv at hout
    rcases htb : tsvBody env args with ⟨res, vc, rc⟩
    rw [htb] at hout
    cases res with
    | ok r => simp at hout
    | error e =>
      dsimp only at hout
      cases hfi : formatIssue e with
      | ok fi => rw [hfi] at hout; simp at hout
      | error e3 =>
        rw [hfi] at hout
        simp only [Except.error.injEq] at hout
        subst hout
        refine ⟨e, hfi, ?_⟩
        have hiso := formatIssue_isOk e
        rw [hfi] at hiso
        simpa [Except.isOk, Except.toBool] using hiso.symm

/-- A TSV environment whose schema loader throws a plain object with a
numeric `type` field. -/
def tsvEnvExotic : TsvEnv :=
  { loadSchema := fun _ => .error (.obj [("type", .num 1)])
    defEnv := { createDef := fun _ _ => (none, [], []), addDefs := fun ds => (ds, [], []) }
    readFile := fun _ => .ok ""
    parseJson := fun _ => .ok .nullV
    mkTsvFile := fun _ _ _ _ => .ok ⟨false, 0⟩
    validate := fun _ _ => .ok [] }

/-- Concrete TSV arguments used by the C6 scenario. -/
def tsvArgsExotic : TsvArgs :=
  { filePath := "/data/events.tsv", hedVersion := "8.4.0", checkForWarnings := false
    fileData := .str "n", jsonData := "", definitions := [] }

/-- Counterexample to C6 as stated: when schema loading throws the plain
object with a numeric `type`, the TSV handler's catch block itself throws
a `TypeError`, which escapes the handler. -/
theorem claim_C6_counterexample :
    (handleValidateHedTsv tsvEnvExotic tsvArgsExotic).outcome = .error mkTypeError := rfl

/-- A string-handler environment that succeeds trivially. -/
def strEnvOk : StrEnv :=
  { loadSchema := fun _ => .ok 1, parseString := fun _ _ => .ok ([], []) }

/-- Concrete string-validation arguments. -/
def strArgsOk : StringArgs :=
  { hedString := "Red", hedVersion := "8.4.0", checkForWarnings := false, definitions := [] }

/-- Witness for C6 (amended): the string handler returns a result for a
concrete environment, and the TSV escape at the exotic environment is a
`formatIssue` failure on a bad plain object. -/
theorem claim_C6_witness :
    (handleValidateHedString strEnvOk strArgsOk).isOk = true ∧
    ∃ e, formatIssue e = .error mkTypeError ∧ badPlainObj e = true := by
  refine ⟨claim_C6_no_exception_escape.1 strEnvOk strArgsOk, ?_⟩
  exact claim_C6_no_exception_escape.2.2 tsvEnvExotic tsvArgsExotic mkTypeError rfl

/-! ## Claim C7 -/

/-- Every successful outcome of the TSV handler's try block carries empty
warnings when `checkForWarnings` is false: all four return points gate the
warnings list on the flag (or return it empty). -/
theorem tsvBody_warnings_nil (env : TsvEnv) (args : TsvArgs)
    (hcfw : args.checkForWarnings = false) :
    ∀ (r : HedTsvResult) (vc rc : Bool),
      tsvBody env args = (.ok r, vc, rc) → r.warnings = [] := by
  intro r vc rc h
  unfold tsvBody at h
  cases hload : env.loadSchema args.hedVersion with
  | error e => rw [hload] at h; simp at h
  | ok schemas =>
  rw [hload] at h
  try dsimp only at h
  cases hdr : createDefinitionManager env.defEnv schemas (.listIn args.definitions) with
  | error e => rw [hdr] at h; simp at h
  | ok dr =>
  rw [hdr] at h
  try dsimp only at h
  by_cases herr : dr.errors.length > 0
  · rw [if_pos herr] at h
    simp only [Prod.mk.injEq, Except.ok.injEq] at h
    obtain ⟨h1, -, -⟩ := h
    subst h1
    simp [hcfw]
  · rw [if_neg herr] at h
    rcases htd : tsvResolveData env args with ⟨dres, rc2⟩
    rw [htd] at h
    try dsimp only at h
    cases dres with
    | error e => simp at h
    | ok data =>
    cases hpj : tsvResolveJson env args with
    | error e => rw [hpj] at h; simp at h
    | ok pj =>
    rw [hpj] at h
    try dsimp only at h
    cases hmk : env.mkTsvFile
        (if baseName args.filePath = "" then "events.tsv" else baseName args.filePath)
        data (jsOr pj (.obj [])) dr.definitionManager with
    | error e => rw [hmk] at h; simp at h
    | ok file =>
    rw [hmk] at h
    try dsimp only at h
    by_cases hhed : file.hasHedData
    · rw [if_neg (by simp [hhed])] at h
      cases hval : env.validate file schemas with
      | error e => rw [hval] at h; simp at h
      | ok issues =>
      rw [hval] at h
      try dsimp only at h
      cases hfis : formatIssues issues with
      | error e => rw [hfis] at h; simp at h
      | ok fis =>
      rw [hfis] at h
      try dsimp only at h
      simp only [Prod.mk.injEq, Except.ok.injEq] at h
      obtain ⟨h1, -, -⟩ := h
      subst h1
      simp [hcfw]
    · rw [if_pos (by simp [hhed])] at h
      simp only [Prod.mk.injEq, Except.ok.injEq] at h
      obtain ⟨h1, -, -⟩ := h
      subst h1
      rfl

/-- C7: with `checkForWarnings` false or absent, the returned warnings list
is empty on every outcome of the TSV and string handlers, while on the TSV
validation path the returned errors are exactly the error-severity
partition of the formatted validator issues, so every error-severity issue
found is included. -/
theorem claim_C7_warnings_gating :
    (∀ (env : TsvEnv) (args : TsvArgs) (r : HedTsvResult),
      args.checkForWarnings = false →
      (handleValidateHedTsv env args).outcome = .ok r → r.warnings = []) ∧
    (∀ (env : StrEnv) (args : StringArgs) (r : HedStringResult),
      args.checkForWarnings = false →
      handleValidateHedString env args = .ok r → r.warnings = []) ∧
    (∀ (env : TsvEnv) (args : TsvArgs) (schemas : Schema)
        (dr : CreateDefinitionManagerResult) (data : JSVal) (rc : Bool)
        (pj : JSVal) (file : TsvFileObj) (issues : List JSVal)
        (fis : List FormattedIssue) (r : HedTsvResult),
      env.loadSchema args.hedVersion = .ok schemas →
      createDefinitionManager env.defEnv schemas (.listIn args.definitions) = .ok dr →
      dr.errors = [] →
      tsvResolveData env args = (.ok data, rc) →
      tsvResolveJson env args = .ok pj →
      env.mkTsvFile (if baseName args.filePath = "" then "events.tsv" else baseName args.filePath)
          data (jsOr pj (.obj [])) dr.definitionManager = .ok file →
      file.hasHedData = true →
      env.validate file schemas = .ok issues →
      formatIssues issues = .ok fis →
      (handleValidateHedTsv env args).outcome = .ok r →
      r.errors = (separateIssuesBySeverity fis).errors ∧
      ∀ fi ∈ fis, fi.severity = "error" → fi ∈ r.errors) := by
  refine ⟨?_, ?_, ?_⟩
  · intro env args r hcfw hout
    unfold handleValidateHedTsv at hout
    rcases htb : tsvBody env args with ⟨res, vc, rc⟩
    rw [htb] at hout
    cases res with
    | ok r0 =>
      dsimp only at hout
      simp only [Except.ok.injEq] at hout
      subst hout
      exact tsvBody_warnings_nil env args hcfw r0 vc rc htb
    | error e =>
      dsimp only at hout
      cases hfi : formatIssue e with
      | ok fi =>
        rw [hfi] at hout
        simp only [Except.ok.injEq] at hout
        subst hout
        rfl
      | error e3 => rw [hfi] at hout; simp at hout
  · intro env args r hcfw hout
    unfold handleValidateHedString at hout
    cases hsb : strBody env args with
    | ok r0 =>
      rw [hsb] at hout
      simp only [Except.ok.injEq] at hout
      subst hout
      unfold strBody at hsb
      repeat' split at hsb
      all_goals (try simp_all)
      all_goals (subst hsb; rfl)
    | error e =>
      rw [hsb] at hout
      simp only [Except.ok.injEq] at hout
      subst hout
      rfl
  · intro env args schemas dr data rc pj file issues fis r
    intro hload hdr herr htd hpj hmk hhed hval hfis hout
    have hbody : tsvBody env args
        = (.ok { errors := (separateIssuesBySeverity fis).errors
                 warnings := if args.checkForWarnings then
                     dr.warnings ++ (separateIssuesBySeverity fis).others else [] },
           true, rc) := by
      unfold tsvBody
      simp only [hload, hdr, herr, htd, hpj, hmk, hhed, hval, hfis,
        List.length_nil, gt_iff_lt, Nat.lt_irrefl, if_false, Bool.not_true]
      simp
    have hrun : handleValidateHedTsv env args
        = { outcome := .ok { errors := (separateIssuesBySeverity fis).errors
                             warnings := if args.checkForWarnings then
                                 dr.warnings ++ (separateIssuesBySeverity fis).others else [] }
            validateCalled := true, readCalled := rc } := by
      unfold handleValidateHedTsv
      rw [hbody]
    rw [hrun] at hout
    simp only [Except.ok.injEq] at hout
    subst hout
    constructor
    · rfl
    · intro fi hmem hsev
      show fi ∈ (separateIssuesBySeverity fis).errors
      unfold separateIssuesBySeverity
      exact List.mem_filter.mpr ⟨hmem, by simp [hsev]⟩

/-- A structured error-severity issue used in concrete scenarios. -/
def hedIssueE : HedIssue :=
  { internalCode := "intE", hedCode := "CODE_E", level := "error"
    message := "bad", parameters := [] }

/-- A structured warning-severity issue used in concrete scenarios. -/
def hedIssueW : HedIssue :=
  { internalCode := "intW", hedCode := "CODE_W", level := "warning"
    message := "meh", parameters := [] }

/-- A TSV environment whose validator reports one error and one warning. -/
def tsvEnvMixed : TsvEnv :=
  { loadSchema := fun _ => .ok 2
    defEnv := { createDef := fun _ _ => (none, [], []), addDefs := fun ds => (ds, [], []) }
    readFile := fun _ => .ok "onset"
    parseJson := fun _ => .ok .nullV
    mkTsvFile := fun _ _ _ _ => .ok { hasHedData := true, tag := 1 }
    validate := fun _ _ => .ok [.issue hedIssueE, .issue hedIssueW] }

/-- Concrete TSV arguments with inline data and warnings not requested. -/
def tsvArgsMixed : TsvArgs :=
  { filePath := "/data/events.tsv", hedVersion := "8.4.0", checkForWarnings := false
    fileData := .str "n", jsonData := "", definitions := [] }

/-- Witness for C7 at the mixed-severity environment: warnings come back
empty and the errors are exactly the error partition. -/
theorem claim_C7_witness :
    ∃ r : HedTsvResult,
      (handleValidateHedTsv tsvEnvMixed tsvArgsMixed).outcome = .ok r ∧
      r.warnings = [] ∧
      r.errors = (separateIssuesBySeverity
        [formatHedIssue hedIssueE, formatHedIssue hedIssueW]).errors := by
  have hout : (handleValidateHedTsv tsvEnvMixed tsvArgsMixed).outcome
      = .ok { errors := [formatHedIssue hedIssueE], warnings := [] } := rfl
  have hA := claim_C7_warnings_gating.1 tsvEnvMixed tsvArgsMixed _ rfl hout
  have hC := claim_C7_warnings_gating.2.2 tsvEnvMixed tsvArgsMixed 2
    { definitionManager := none, errors := [], warnings := [] }
    (.str "n") false .nullV { hasHedData := true, tag := 1 }
    [.issue hedIssueE, .issue hedIssueW]
    [formatHedIssue hedIssueE, formatHedIssue hedIssueW] _
    rfl rfl rfl rfl rfl rfl rfl rfl rfl hout
  exact ⟨_, hout, hA, hC.1⟩

/-! ## Claim C8 -/

/-- C8: whenever the constructed TSV file object reports `hasHedData`
false, the handler returns empty errors and warnings immediately and the
validation object's `.validate` is never invoked. -/
theorem claim_C8_no_hed_data_shortcircuit (env : TsvEnv) (args : TsvArgs)
    (schemas : Schema) (dr : CreateDefinitionManagerResult) (data : JSVal)
    (rc : Bool) (pj : JSVal) (file : TsvFileObj)
    (hload : env.loadSchema args.hedVersion = .ok schemas)
    (hdr : createDefinitionManager env.defEnv schemas (.listIn args.definitions) = .ok dr)
    (herr : dr.errors = [])
    (htd : tsvResolveData env args = (.ok data, rc))
    (hpj : tsvResolveJson env args = .ok pj)
    (hmk : env.mkTsvFile
        (if baseName args.filePath = "" then "events.tsv" else baseName args.filePath)
        data (jsOr pj (.obj [])) dr.definitionManager = .ok file)
    (hhed : file.hasHedData = false) :
    (handleValidateHedTsv env args).outcome = .ok { errors := [], warnings := [] } ∧
    (handleValidateHedTsv env args).validateCalled = false := by
  have hbody : tsvBody env args = (.ok { errors := [], warnings := [] }, false, rc) := by
    unfold tsvBody
    simp only [hload, hdr, herr, htd, hpj, hmk, hhed, List.length_nil, gt_iff_lt,
      Nat.lt_irrefl, if_false, Bool.not_false, if_true]
    try simp
  unfold handleValidateHedTsv
  rw [hbody]
  exact ⟨rfl, rfl⟩

/-- A TSV environment whose constructed file object carries no HED data;
its validator would report an error if it were ever invoked. -/
def tsvEnvNoHed : TsvEnv :=
  { loadSchema := fun _ => .ok 3
    defEnv := { createDef := fun _ _ => (none, [], []), addDefs := fun ds => (ds, [], []) }
    readFile := fun _ => .ok "onset"
    parseJson := fun _ => .ok .nullV
    mkTsvFile := fun _ _ _ _ => .ok { hasHedData := false, tag := 2 }
    validate := fun _ _ => .ok [.issue hedIssueE] }

/-- Witness for C8 at a concrete no-HED-data environment. -/
theorem claim_C8_witness :
    (handleValidateHedTsv tsvEnvNoHed tsvArgsMixed).outcome
      = .ok { errors := [], warnings := [] } ∧
    (handleValidateHedTsv tsvEnvNoHed tsvArgsMixed).validateCalled = false := by
  exact claim_C8_no_hed_data_shortcircuit tsvEnvNoHed tsvArgsMixed 3
    { definitionManager := none, errors := [], warnings := [] }
    (.str "n") false .nullV { hasHedData := false, tag := 2 }
    rfl rfl rfl rfl rfl rfl rfl

/-! ## Claim C10 -/

/-- The TSV handler's `readCalled` flag is threaded unchanged from the try
block through the catch. -/
theorem handleValidateHedTsv_readCalled (env : TsvEnv) (args : TsvArgs) :
    (handleValidateHedTsv env args).readCalled = (tsvBody env args).2.2 := by
  unfold handleValidateHedTsv
  rcases htb : tsvBody env args with ⟨res, vc, rc⟩
  cases res with
  | ok r => rfl
  | error e => dsimp only; cases formatIssue e <;> rfl

/-- The sidecar handler's `readCalled` flag is threaded unchanged. -/
theorem handleValidateHedSidecar_readCalled (env : SidecarEnv) (args : SidecarArgs) :
    (handleValidateHedSidecar env args).readCalled = (sidecarBody env args).2 := by
  unfold handleValidateHedSidecar
  rcases hsb : sidecarBody env args with ⟨res, rc⟩
  cases res <;> rfl

/-- When the inline file data is the empty string, `undefined` or `null`,
the TSV data-acquisition step invokes the file read. -/
theorem tsvResolveData_reads (env : TsvEnv) (args : TsvArgs)
    (hfd : args.fileData = .str "" ∨ args.fileData = .undef ∨ args.fileData = .nullV) :
    (tsvResolveData env args).2 = true := by
  unfold tsvResolveData
  rcases hfd with hfd | hfd | hfd <;> rw [hfd] <;>
    cases env.readFile args.filePath <;> rfl

/-- Past a successful schema load and definition assembly, the TSV body's
read flag is exactly the data-acquisition step's read flag. -/
theorem tsvBody_readCalled (env : TsvEnv) (args : TsvArgs) (schemas : Schema)
    (dr : CreateDefinitionManagerResult)
    (hload : env.loadSchema args.hedVersion = .ok schemas)
    (hdr : createDefinitionManager env.defEnv schemas (.listIn args.definitions) = .ok dr)
    (herr : dr.errors = []) :
    (tsvBody env args).2.2 = (tsvResolveData env args).2 := by
  unfold tsvBody
  simp only [hload, hdr, herr, List.length_nil, gt_iff_lt, Nat.lt_irrefl, if_false]
  rcases htd : tsvResolveData env args with ⟨dres, rc2⟩
  try dsimp only
  cases dres with
  | error e => rfl
  | ok data =>
    dsimp only
    repeat' split
    all_goals rfl

/-- C10: an inline `fileData` equal to the empty string behaves exactly
like an absent (`undefined`) `fileData` in both the TSV and the sidecar
handlers, and on every such call (also for `null`) the content is obtained
through the file-read collaborator. -/
theorem claim_C10_empty_fileData_reads_file :
    (∀ (env : TsvEnv) (a : TsvArgs),
      handleValidateHedTsv env { a with fileData := .str "" }
        = handleValidateHedTsv env { a with fileData := .undef }) ∧
    (∀ (env : SidecarEnv) (a : SidecarArgs),
      handleValidateHedSidecar env { a with fileData := .str "" }
        = handleValidateHedSidecar env { a with fileData := .undef }) ∧
    (∀ (env : TsvEnv) (args : TsvArgs) (schemas : Schema)
        (dr : CreateDefinitionManagerResult),
      env.loadSchema args.hedVersion = .ok schemas →
      createDefinitionManager env.defEnv schemas (.listIn args.definitions) = .ok dr →
      dr.errors = [] →
      (args.fileData = .str "" ∨ args.fileData = .undef ∨ args.fileData = .nullV) →
      (handleValidateHedTsv env args).readCalled = true) ∧
    (∀ (env : SidecarEnv) (args : SidecarArgs) (schemas : Schema),
      env.loadSchema args.hedVersion = .ok schemas →
      (args.fileData = .str "" ∨ args.fileData = .undef ∨ args.fileData = .nullV) →
      (handleValidateHedSidecar env args).readCalled = true) := by
  refine ⟨fun env a => rfl, fun env a => rfl, ?_, ?_⟩
  · intro env args schemas dr hload hdr herr hfd
    rw [handleValidateHedTsv_readCalled, tsvBody_readCalled env args schemas dr hload hdr herr]
    exact tsvResolveData_reads env args hfd
  · intro env args schemas hload hfd
    rw [handleValidateHedSidecar_readCalled]
    unfold sidecarBody
    simp only [hload]
    rcases hfd with hfd | hfd | hfd <;> rw [hfd] <;>
      cases env.readFile args.filePath <;> rfl

/-- Concrete TSV arguments with empty-string inline file data. -/
def tsvArgsEmptyData : TsvArgs :=
  { filePath := "/data/events.tsv", hedVersion := "8.4.0", checkForWarnings := false
    fileData := .str "", jsonData := "", definitions := [] }

/-- Witness for C10: with empty-string inline data the concrete TSV run
reads the file. -/
theorem claim_C10_witness :
    (handleValidateHedTsv tsvEnvMixed tsvArgsEmptyData).readCalled = true := by
  exact claim_C10_empty_fileData_reads_file.2.2.1 tsvEnvMixed tsvArgsEmptyData 2
    { definitionManager := none, errors := [], warnings := [] }
    rfl rfl rfl (Or.inl rfl)
